import Mathlib

/-!
Verification of the Monte-Carlo estimation engine and stochastic-approximation
solver of `maxentropy` (`src/maxentropy/bigmodel.py`).

Vectors of length `m` are modelled as `Fin m → ℝ`, feature matrices of shape
`(m, n)` as `Fin m → Fin n → ℝ`, matching the numpy arrays in the source.
Floating-point numbers are modelled as real numbers.
-/

noncomputable section

namespace Maxentropy

/-- Modelled from the spec: `maxentutils.innerprod` (generic inner product,
assumed as an available primitive by the spec; `maxentutils.py` is not in
`src/`).  `innerprod a b = a · b`. -/
def innerprod {m : ℕ} (a b : Fin m → ℝ) : ℝ :=
  ∑ i, a i * b i

/-- Modelled from the spec: `maxentutils.innerprodtranspose` (generic matrix
transpose-vector product, assumed as an available primitive by the spec).
`innerprodtranspose A v j = (Aᵀ v)_j = v · A[:,j]`. -/
def innerprodtranspose {m n : ℕ} (A : Fin m → Fin n → ℝ) (v : Fin m → ℝ) :
    Fin n → ℝ :=
  fun j => ∑ i, A i j * v i

/-- Modelled from the spec: `scipy.misc.logsumexp` (log-sum-exp primitive).
`logsumexp x = log (∑ j, exp (x j))`. -/
def logsumexp {n : ℕ} (x : Fin n → ℝ) : ℝ :=
  Real.log (∑ j, Real.exp (x j))

/-- List version of log-sum-exp, used when pooling per-trial scalars
(`logsumexp(logZs)` in `BigModel.estimate`). -/
def logsumexpList (xs : List ℝ) : ℝ :=
  Real.log ((xs.map Real.exp).sum)

/-- The state of a `BigModel` instance, restricted to the attributes read by
`_logv` / `lognormconst` / `logpdf` (source lines 241-319 and 468-495):
the parameter vector `self.params`, the internal sample record
(`self.sampleF`, `self.samplelogprobs`, `self.priorlogprobs`), the external
sample records (`self.externalFs`, `self.externallogprobs`,
`self.externalpriorlogprobs`) and the active-sample selector `self.external`
(`None` = internal sample, `Some e` = external record at index `e`).
All sample records share the shape `(m, n)`. -/
structure BigModel (m n : ℕ) where
  params : Fin m → ℝ
  sampleF : Fin m → Fin n → ℝ
  samplelogprobs : Fin n → ℝ
  priorlogprobs : Option (Fin n → ℝ)
  external : Option ℕ
  externalFs : List (Fin m → Fin n → ℝ)
  externallogprobs : List (Fin n → ℝ)
  externalpriorlogprobs : Option (List (Fin n → ℝ))

/-- `BigModel._logv` (source lines 276-319), with the cache check dropped
(the cache, when valid, holds exactly this value): branch on `self.external`;
compute `paramsdotF = innerprodtranspose(F, params)`;
`logv = paramsdotF - logprobs`; add the prior log-density when one was
supplied for the selected sample. -/
def BigModel.logv {m n : ℕ} (st : BigModel m n) : Fin n → ℝ :=
  match st.external with
  | none =>
    let paramsdotF := innerprodtranspose st.sampleF st.params
    let base := fun j => paramsdotF j - st.samplelogprobs j
    match st.priorlogprobs with
    | none => base
    | some lp => fun j => base j + lp j
  | some e =>
    let paramsdotF := innerprodtranspose (st.externalFs.getD e 0) st.params
    let base := fun j => paramsdotF j - st.externallogprobs.getD e 0 j
    match st.externalpriorlogprobs with
    | none => base
    | some lps => fun j => base j + lps.getD e 0 j

/-- `BigModel.lognormconst` (source lines 241-257), with the cache check
dropped: `logZapprox = logsumexp(logv) - log n` where `n = len(logv)`. -/
def BigModel.lognormconst {m n : ℕ} (st : BigModel m n) : ℝ :=
  logsumexp st.logv - Real.log n

/-- `BigModel.logpdf` (source lines 468-495), for a 1-d feature vector `fx`:
`np.dot(params, fx) - log_Z_est`, plus `log_prior_x` when supplied. -/
def BigModel.logpdf {m n : ℕ} (st : BigModel m n) (fx : Fin m → ℝ)
    (log_prior_x : Option ℝ) : ℝ :=
  let v := (∑ i, st.params i * fx i) - st.lognormconst
  match log_prior_x with
  | none => v
  | some lp => v + lp

/-- The feature matrix of the active sample: `self.sampleF` when the external
selector is unset, else `self.externalFs[e]`. -/
def BigModel.activeF {m n : ℕ} (st : BigModel m n) : Fin m → Fin n → ℝ :=
  match st.external with
  | none => st.sampleF
  | some e => st.externalFs.getD e 0

/-- The log-auxiliary-density vector of the active sample. -/
def BigModel.activelogprobs {m n : ℕ} (st : BigModel m n) : Fin n → ℝ :=
  match st.external with
  | none => st.samplelogprobs
  | some e => st.externallogprobs.getD e 0

/-- The prior log-density supplied for the active sample, when any. -/
def BigModel.activepriorlogprobs {m n : ℕ} (st : BigModel m n) :
    Option (Fin n → ℝ) :=
  match st.external with
  | none => st.priorlogprobs
  | some e =>
    match st.externalpriorlogprobs with
    | none => none
    | some lps => some (lps.getD e 0)

theorem innerprodtranspose_eq_innerprod_col {m n : ℕ}
    (A : Fin m → Fin n → ℝ) (v : Fin m → ℝ) (j : Fin n) :
    innerprodtranspose A v j = innerprod v (fun i => A i j) := by
  unfold innerprodtranspose innerprod
  exact Finset.sum_congr rfl fun i _ => mul_comm _ _

/-- Claim C1: for every parameter vector θ, feature matrix F and
log-auxiliary-density vector of the active sample (the internal sample when
the external selector is unset, else the external record at index e),
`_logv` returns the vector whose j-th entry is
`θ·F[:,j] − logaux_j`, with `logprior_j` added when a prior log-density was
supplied for that sample. -/
theorem logv_spec {m n : ℕ} (st : BigModel m n) (j : Fin n) :
    st.logv j =
      innerprod st.params (fun i => st.activeF i j) - st.activelogprobs j
        + (st.activepriorlogprobs.elim 0 fun lp => lp j) := by
  unfold BigModel.logv BigModel.activeF BigModel.activelogprobs
    BigModel.activepriorlogprobs
  cases hext : st.external with
  | none =>
    cases hpr : st.priorlogprobs with
    | none => simp [innerprodtranspose_eq_innerprod_col]
    | some lp => simp [innerprodtranspose_eq_innerprod_col]
  | some e =>
    cases hpr : st.externalpriorlogprobs with
    | none => simp [innerprodtranspose_eq_innerprod_col]
    | some lps => simp [innerprodtranspose_eq_innerprod_col]

/-- Claim C2: for every parameter vector θ, feature matrix F and
log-auxiliary-density vector logaux of the active sample, `lognormconst()`
returns exactly `logsumexp(logv) − log n` where `logv` is the vector of log
importance weights and `n` the number of sample points; in particular, with
the internal sample active and no prior supplied this equals
`logsumexp(θ·F − logaux) − log n`. -/
theorem lognormconst_spec {m n : ℕ} (st : BigModel m n)
    (hext : st.external = none) (hpr : st.priorlogprobs = none) :
    st.lognormconst = logsumexp st.logv - Real.log n ∧
    st.lognormconst =
      Real.log (∑ j, Real.exp
        ((∑ i, st.params i * st.sampleF i j) - st.samplelogprobs j))
        - Real.log n := by
  constructor
  · rfl
  · unfold BigModel.lognormconst logsumexp BigModel.logv
    rw [hext, hpr]
    simp only
    congr 2
    refine Finset.sum_congr rfl fun j _ => ?_
    congr 1
    congr 1
    exact Finset.sum_congr rfl fun i _ => mul_comm _ _

/-- A concrete model state used by the witness of C2. -/
def stC2 : BigModel 1 1 :=
  ⟨fun _ => 0, fun _ _ => 0, fun _ => 0, none, none, [], [], none⟩

/-- Witness for C2 at a concrete model state. -/
theorem lognormconst_spec_witness :
    stC2.external = none ∧ stC2.priorlogprobs = none ∧
    stC2.lognormconst =
      Real.log (∑ j, Real.exp
        ((∑ i, stC2.params i * stC2.sampleF i j) - stC2.samplelogprobs j))
        - Real.log ((1 : ℕ) : ℝ) := by
  exact ⟨rfl, rfl, (lognormconst_spec stC2 rfl rfl).2⟩

/-- Claim C4: for every 1-d feature vector fx and every parameter vector θ,
with no prior log-density supplied, `logpdf(fx) + lognormconst()` equals
`θ·fx`, for every model state (hence regardless of which sample was used to
estimate the log partition function). -/
theorem logpdf_consistency {m n : ℕ} (st : BigModel m n) (fx : Fin m → ℝ) :
    st.logpdf fx none + st.lognormconst = innerprod st.params fx := by
  unfold BigModel.logpdf innerprod
  ring

/-- One sample record as drawn by `resample()` and consumed by one trial of
`estimate()` (source lines 376-422): a feature matrix, the
log-auxiliary-density vector, and an optional prior log-density vector. -/
structure SampleData (m n : ℕ) where
  F : Fin m → Fin n → ℝ
  logprobs : Fin n → ℝ
  priorlogprobs : Option (Fin n → ℝ)

/-- `_logv` evaluated on one sample record (the internal branch of source
lines 301-307). -/
def sampleLogv {m n : ℕ} (θ : Fin m → ℝ) (s : SampleData m n) : Fin n → ℝ :=
  let paramsdotF := innerprodtranspose s.F θ
  let base := fun j => paramsdotF j - s.logprobs j
  match s.priorlogprobs with
  | none => base
  | some lp => fun j => base j + lp j

/-- `lognormconst` evaluated on one sample record. -/
def sampleLogZ {m n : ℕ} (θ : Fin m → ℝ) (s : SampleData m n) : ℝ :=
  logsumexp (sampleLogv θ s) - Real.log n

/-- One trial of `estimate()` (source lines 387-402):
`logu = logv - logZ`; `averages = F.dot(exp(logu)) / n`. -/
def sampleMu {m n : ℕ} (θ : Fin m → ℝ) (s : SampleData m n) : Fin m → ℝ :=
  fun i => (∑ j, s.F i j * Real.exp (sampleLogv θ s j - sampleLogZ θ s)) / n

/-- Modelled from the spec: `maxentutils.columnmeans` (not in `src/`);
per the spec, the elementwise mean of the per-trial estimate vectors. -/
def columnmeans {m : ℕ} (mus : List (Fin m → ℝ)) : Fin m → ℝ :=
  fun i => ((mus.map fun μ => μ i).sum) / mus.length

/-- Modelled from the spec: `maxentutils.columnvariances` (not in `src/`);
per the spec, the elementwise sample variance of the per-trial estimate
vectors. -/
def columnvariances {m : ℕ} (mus : List (Fin m → ℝ)) : Fin m → ℝ :=
  fun i =>
    ((mus.map fun μ => (μ i - columnmeans mus i) ^ 2).sum)
      / ((mus.length : ℝ) - 1)

/-- The member variables stored by `estimate()`: `mu`, `logZapprox`, and
`varE` (absent after a single-trial run). -/
structure EstimateResult (m : ℕ) where
  mu : Fin m → ℝ
  logZapprox : ℝ
  varE : Option (Fin m → ℝ)

/-- `BigModel.estimate` (source lines 376-422), with the per-trial sample
records (one fresh draw per trial when `matrixtrials > 1`, else the current
sample) passed explicitly: gather `mus` and `logZs` over the trials; if one
trial, store `mu = mus[0]`, `logZapprox = logZs[0]` and delete `varE`;
otherwise store `logZapprox = logsumexp(logZs) - log ttrials`,
`varE = columnvariances(mus)` and `mu = columnmeans(mus)`. -/
def estimate {m n : ℕ} (θ : Fin m → ℝ) (trials : List (SampleData m n)) :
    EstimateResult m :=
  let mus := trials.map (sampleMu θ)
  let logZs := trials.map (sampleLogZ θ)
  if mus.length = 1 then
    { mu := mus.getD 0 0, logZapprox := logZs.getD 0 0, varE := none }
  else
    { mu := columnmeans mus
      logZapprox := logsumexpList logZs - Real.log logZs.length
      varE := some (columnvariances mus) }

/-- Claim C3: each trial's estimate is `μ_t = F·exp(logv − logZ_t)/n`;
with trial count 1 the stored `mu` and `logZapprox` are `μ_1` and `logZ_1`
and `varE` is absent; with trial count T > 1 the stored `logZapprox` is
`logsumexp(logZ_1..logZ_T) − log T`, `mu` is the elementwise mean of
`μ_1..μ_T`, and `varE` is the elementwise sample variance of `μ_1..μ_T`. -/
theorem estimate_spec {m n : ℕ} (θ : Fin m → ℝ)
    (trials : List (SampleData m n)) :
    (∀ s : SampleData m n, trials = [s] →
      (estimate θ trials).mu =
        (fun i =>
          (∑ j, s.F i j * Real.exp (sampleLogv θ s j - sampleLogZ θ s)) / n) ∧
      (estimate θ trials).logZapprox = sampleLogZ θ s ∧
      (estimate θ trials).varE = none) ∧
    (2 ≤ trials.length →
      (estimate θ trials).logZapprox =
        Real.log ((trials.map fun s => Real.exp (sampleLogZ θ s)).sum)
          - Real.log trials.length ∧
      (∀ i, (estimate θ trials).mu i =
        ((trials.map fun s => sampleMu θ s i).sum) / trials.length) ∧
      (estimate θ trials).varE = some (fun i =>
        ((trials.map fun s =>
          (sampleMu θ s i -
            ((trials.map fun s2 => sampleMu θ s2 i).sum) / trials.length) ^ 2).sum)
          / ((trials.length : ℝ) - 1))) := by
  constructor
  · rintro s rfl
    exact ⟨rfl, rfl, rfl⟩
  · intro h2
    have hlen : ¬ (trials.map (sampleMu θ)).length = 1 := by
      rw [List.length_map]; omega
    unfold estimate
    simp only [hlen, if_false]
    refine ⟨?_, ?_, ?_⟩
    · simp [logsumexpList, List.map_map, Function.comp_def]
    · intro i
      simp [columnmeans, List.map_map, Function.comp_def]
    · congr 1
      funext i
      simp [columnvariances, columnmeans, List.map_map, Function.comp_def]

/-- A concrete sample record used by the witness of C3. -/
def sC3 : SampleData 1 1 :=
  ⟨fun _ _ => 0, fun _ => 0, none⟩

/-- Witness for C3 at concrete trial lists of length 1 and 2. -/
theorem estimate_spec_witness :
    (estimate (fun _ => (0:ℝ)) [sC3]).varE = none ∧
    (estimate (fun _ => (0:ℝ)) [sC3, sC3]).logZapprox =
      Real.log (([sC3, sC3].map fun s =>
        Real.exp (sampleLogZ (fun _ => (0:ℝ)) s)).sum)
        - Real.log ([sC3, sC3].length) := by
  exact ⟨((estimate_spec _ [sC3]).1 sC3 rfl).2.2,
    ((estimate_spec _ [sC3, sC3]).2 (by decide)).1⟩

/-- The two validation failures of `resample()` (source lines 216-231).
The source raises `ValueError` with distinct messages; the spec names the
row-count failure `DimensionMismatchError` and the log-density-shape failure
`ShapeError`. -/
inductive ResampleError where
  | DimensionMismatchError : ResampleError
  | ShapeError : ResampleError
deriving DecidableEq

/-- The triple drawn by `next(self.samplegen)` in `resample()`: a feature
matrix of shape `(m, n)` and the accompanying log-probability vector, which
may have the wrong length (`samplelogprobs.shape == (n,)` is validated).
The raw sample points are opaque and omitted. -/
structure DrawData where
  m : ℕ
  n : ℕ
  F : Fin m → Fin n → ℝ
  logprobs : List ℝ

/-- `BigModel.resample` (source lines 191-238), reduced to its validation
logic: given the current parameter vector (`none` when `self.params` is
unset) and a fresh draw, read `m, n = F.shape`; if `params` is unset,
initialize it to `zeros(m)`, else fail with the dimension-mismatch error
when `m ≠ len(params)`; then fail with the shape error when the
log-probability vector is not of length `n`.  Returns the resulting
parameter vector. -/
def resample (params : Option (List ℝ)) (d : DrawData) :
    Except ResampleError (List ℝ) :=
  match params with
  | none =>
    if d.logprobs.length = d.n then Except.ok (List.replicate d.m 0)
    else Except.error ResampleError.ShapeError
  | some θ =>
    if d.m ≠ θ.length then Except.error ResampleError.DimensionMismatchError
    else if d.logprobs.length = d.n then Except.ok θ
    else Except.error ResampleError.ShapeError

/-- Claim C8: `resample()` initializes θ to the zero vector of length equal
to the drawn feature matrix's row count when θ was previously unset; fails
with `DimensionMismatchError` when θ is set and the row count disagrees with
`len(θ)`; and fails with `ShapeError` when the log-auxiliary-density vector
does not have length `n` (the feature matrix's column count). -/
theorem resample_spec (d : DrawData) :
    (d.logprobs.length = d.n →
      resample none d = Except.ok (List.replicate d.m 0)) ∧
    (∀ θ : List ℝ, d.m ≠ θ.length →
      resample (some θ) d = Except.error ResampleError.DimensionMismatchError) ∧
    (d.logprobs.length ≠ d.n →
      resample none d = Except.error ResampleError.ShapeError ∧
      ∀ θ : List ℝ, d.m = θ.length →
        resample (some θ) d = Except.error ResampleError.ShapeError) := by
  refine ⟨fun hn => ?_, fun θ hm => ?_, fun hn => ⟨?_, fun θ hm => ?_⟩⟩
  · simp [resample, hn]
  · simp [resample, hm]
  · simp [resample, hn]
  · simp [resample, hn, hm]

/-- Witness for C8 on concrete draws: a valid draw with unset θ, a draw whose
row count disagrees with an already-set θ, and a draw with a bad
log-probability vector. -/
theorem resample_spec_witness :
    resample none ⟨2, 3, fun _ _ => 0, [0, 0, 0]⟩ =
      Except.ok (List.replicate 2 0) ∧
    resample (some [0]) ⟨2, 3, fun _ _ => 0, [0, 0, 0]⟩ =
      Except.error ResampleError.DimensionMismatchError ∧
    resample (some [0, 0]) ⟨2, 3, fun _ _ => 0, [0, 0]⟩ =
      Except.error ResampleError.ShapeError := by
  refine ⟨(resample_spec ⟨2, 3, fun _ _ => 0, [0, 0, 0]⟩).1 rfl,
    (resample_spec ⟨2, 3, fun _ _ => 0, [0, 0, 0]⟩).2.1 [0] (by decide),
    ((resample_spec ⟨2, 3, fun _ _ => 0, [0, 0]⟩).2.2 (by decide)).2 [0, 0] rfl⟩

/-- Configuration read by `stochapprox` (source lines 498-614): the initial
step size `self.a_0`, the hold count `self.a_0_hold`, the decrease rate
`self.stepdecreaserate` (`none` models Python `None`), the
`self.ruppertaverage` and `self.deylon` flags, `self.maxiter`, the target
expectation vector `K`, and the Monte-Carlo expectation estimate: `est k θ`
is the value `self.mu` produced by `self.estimate()` at iteration `k` under
parameters `θ` (a fresh single-trial draw; the sampling randomness is
abstracted as this oracle).  The Andradottir branch
(`self.andradottir = True`) is not modelled: no claim concerns it and the
spec flags its interaction with the other variants as an open question. -/
structure SAConfig (m : ℕ) where
  a_0 : ℝ
  a_0_hold : ℕ
  stepdecreaserate : Option ℝ
  ruppertaverage : Bool
  deylon : Bool
  maxiter : ℕ
  K : Fin m → ℝ
  est : ℕ → (Fin m → ℝ) → Fin m → ℝ

/-- The loop state of `stochapprox`: the iteration counter `k`, the effective
decay index `n`, the current step size `a_k`, the committed parameters
`self.params`, the running average `avgparams`, the two most recent gradient
estimates `y_k` and `y_kminus1` (`none` while not yet assigned), the
diagnostic `self.nosignswitch` list, and the `self.matrixtrials` /
`self.staticsample` settings the procedure overwrites. -/
structure SAState (m : ℕ) where
  k : ℕ
  n : ℕ
  a_k : ℝ
  params : Fin m → ℝ
  avgparams : Fin m → ℝ
  y_k : Option (Fin m → ℝ)
  y_kminus1 : Option (Fin m → ℝ)
  nosignswitch : List ℕ
  matrixtrials : ℕ
  staticsample : Bool

/-- One iteration of the `while True` loop of `stochapprox` (source lines
528-614), standard (non-Andradottir) estimator branch:

1. `k += 1`;
2. if `k > a_0_hold`, update the effective decay index `n`: without Deylon
   acceleration `n = k - a_0_hold`; with it, `n = k - a_0_hold` while
   `k <= 2 + a_0_hold`, and afterwards `n` increments exactly when
   `dot(y_k, y_kminus1) < 0` (the two estimates stored by the previous
   iterations), the iteration index being appended to `nosignswitch`
   otherwise;
3. recompute `a_k` from `n`: `a_0 * log n / n` when the decrease rate is
   unset and averaging is on, else `a_0 / n ** stepdecreaserate` (when the
   rate is unset and averaging is off the source raises `TypeError` from
   `n ** None`; that unreachable-by-our-theorems case is modelled as 0);
4. set `matrixtrials = 1` and `staticsample = False`, resample and
   reestimate, `y_k = mu - K`, keeping the previous `y_k` as `y_kminus1`;
5. commit `params - a_k*y_k` directly, or, under Ruppert-Polyak averaging,
   fold it into the running average and commit the average. -/
def saStep {m : ℕ} (cfg : SAConfig m) (s : SAState m) : SAState m :=
  let k := s.k + 1
  let nns : ℕ × List ℕ :=
    if k > cfg.a_0_hold then
      if cfg.deylon = false then (k - cfg.a_0_hold, s.nosignswitch)
      else if k ≤ 2 + cfg.a_0_hold then (k - cfg.a_0_hold, s.nosignswitch)
      else if innerprod (s.y_k.getD 0) (s.y_kminus1.getD 0) < 0 then
        (s.n + 1, s.nosignswitch)
      else (s.n, s.nosignswitch ++ [k])
    else (s.n, s.nosignswitch)
  let n := nns.1
  let a :=
    if k > cfg.a_0_hold then
      match cfg.stepdecreaserate with
      | none => if cfg.ruppertaverage then cfg.a_0 * Real.log n / n else 0
      | some p => cfg.a_0 / (n : ℝ) ^ p
    else s.a_k
  let y := fun i => cfg.est k s.params i - cfg.K i
  let newparams := fun i => s.params i - a * y i
  let avg :=
    if cfg.ruppertaverage then
      fun i => (((k : ℕ) : ℝ) - 1) / ((k : ℕ) : ℝ) * s.avgparams i
        + 1 / ((k : ℕ) : ℝ) * newparams i
    else s.avgparams
  { k := k
    n := n
    a_k := a
    params := if cfg.ruppertaverage then avg else newparams
    avgparams := avg
    y_k := some y
    y_kminus1 := s.y_k
    nosignswitch := nns.2
    matrixtrials := 1
    staticsample := false }

/-- `t` iterations of the `stochapprox` loop. -/
def saIterate {m : ℕ} (cfg : SAConfig m) (s : SAState m) : ℕ → SAState m
  | 0 => s
  | t + 1 => saStep cfg (saIterate cfg s t)

/-- The state on entry to the loop (source lines 512-527): `k` resumes from
the persisted counter (0 on a fresh start), `a_k = a_0`, `avgparams =
params`, no gradient estimates yet, and the pre-call `matrixtrials` /
`staticsample` settings. -/
def saInit {m : ℕ} (cfg : SAConfig m) (θ0 : Fin m → ℝ) (k0 : ℕ)
    (mt : ℕ) (ss : Bool) : SAState m :=
  { k := k0
    n := 0
    a_k := cfg.a_0
    params := θ0
    avgparams := θ0
    y_k := none
    y_kminus1 := none
    nosignswitch := []
    matrixtrials := mt
    staticsample := ss }

/-- `BigModel.stochapprox` run to completion: the loop body executes until
the check `k >= maxiter` placed at the end of the body fires, i.e.
`max 1 (maxiter - k₀)` times. -/
def stochapprox {m : ℕ} (cfg : SAConfig m) (s : SAState m) : SAState m :=
  saIterate cfg s (max 1 (cfg.maxiter - s.k))

theorem saStep_k {m : ℕ} (cfg : SAConfig m) (s : SAState m) :
    (saStep cfg s).k = s.k + 1 := rfl

theorem saIterate_k {m : ℕ} (cfg : SAConfig m) (s : SAState m) (t : ℕ) :
    (saIterate cfg s t).k = s.k + t := by
  induction t with
  | zero => rfl
  | succ u ih => simpa [saIterate, saStep_k, ih] using by omega

/-- Claim C6: in `stochapprox` without Deylon acceleration and with a
configured decrease rate `p`, the step size stays at `a_0` for every
iteration `k ≤ H` (the hold count), equals `a_0 / (k−H)^p` for every
`k > H`, and with `H = 0` the effective decay index `n` equals the raw
iteration counter `k`. -/
theorem stepsize_schedule {m : ℕ} (cfg : SAConfig m) (θ0 : Fin m → ℝ)
    (mt : ℕ) (ss : Bool) (p : ℝ) (hd : cfg.deylon = false)
    (hp : cfg.stepdecreaserate = some p) (t : ℕ) :
    (t ≤ cfg.a_0_hold →
      (saIterate cfg (saInit cfg θ0 0 mt ss) t).a_k = cfg.a_0) ∧
    (cfg.a_0_hold < t →
      (saIterate cfg (saInit cfg θ0 0 mt ss) t).a_k =
        cfg.a_0 / (((t - cfg.a_0_hold : ℕ)) : ℝ) ^ p) ∧
    (cfg.a_0_hold = 0 → 1 ≤ t →
      (saIterate cfg (saInit cfg θ0 0 mt ss) t).n = t) := by
  have hk : ∀ u : ℕ, (saIterate cfg (saInit cfg θ0 0 mt ss) u).k = u := by
    intro u
    rw [saIterate_k]
    simp [saInit]
  refine ⟨?_, ?_, ?_⟩
  · intro hhold
    induction t with
    | zero => rfl
    | succ u ih =>
      have hcond : ¬ (u + 1 > cfg.a_0_hold) := by omega
      have hku : (saIterate cfg (saInit cfg θ0 0 mt ss) u).k = u := hk u
      show (saStep cfg (saIterate cfg (saInit cfg θ0 0 mt ss) u)).a_k = cfg.a_0
      unfold saStep
      rw [hku]
      simp only [hcond, if_false]
      exact ih (by omega)
  · intro hgt
    obtain ⟨u, rfl⟩ : ∃ u, t = u + 1 := ⟨t - 1, by omega⟩
    have hku : (saIterate cfg (saInit cfg θ0 0 mt ss) u).k = u := hk u
    show (saStep cfg (saIterate cfg (saInit cfg θ0 0 mt ss) u)).a_k = _
    unfold saStep
    rw [hku, hp, hd]
    simp only [hgt, if_true, if_pos, reduceIte]
  · intro hH ht
    obtain ⟨u, rfl⟩ : ∃ u, t = u + 1 := ⟨t - 1, by omega⟩
    have hku : (saIterate cfg (saInit cfg θ0 0 mt ss) u).k = u := hk u
    have hgt : u + 1 > cfg.a_0_hold := by omega
    show (saStep cfg (saIterate cfg (saInit cfg θ0 0 mt ss) u)).n = u + 1
    unfold saStep
    rw [hku, hd, hH]
    simp [hgt]

/-- Concrete configuration (hold count 1) for the witness of C6. -/
def cfgC6 : SAConfig 1 :=
  ⟨1, 1, some 1, true, false, 3, fun _ => 0, fun _ _ => fun _ => 0⟩

/-- Concrete configuration (hold count 0) for the witness of C6. -/
def cfgC6b : SAConfig 1 :=
  ⟨1, 0, some 1, true, false, 3, fun _ => 0, fun _ _ => fun _ => 0⟩

/-- Witness for C6: with hold count 1 the step size is still `a_0` at
iteration 1 and follows the power schedule at iteration 2; with hold count 0
the decay index equals the iteration counter. -/
theorem stepsize_schedule_witness :
    (saIterate cfgC6 (saInit cfgC6 (fun _ => 0) 0 1 true) 1).a_k =
      cfgC6.a_0 ∧
    (saIterate cfgC6 (saInit cfgC6 (fun _ => 0) 0 1 true) 2).a_k =
      cfgC6.a_0 / (((2 - cfgC6.a_0_hold : ℕ)) : ℝ) ^ (1 : ℝ) ∧
    (saIterate cfgC6b (saInit cfgC6b (fun _ => 0) 0 1 true) 1).n = 1 := by
  refine ⟨?_, ?_, ?_⟩
  · exact (stepsize_schedule cfgC6 (fun _ => 0) 1 true 1 rfl rfl 1).1
      (by decide)
  · exact (stepsize_schedule cfgC6 (fun _ => 0) 1 true 1 rfl rfl 2).2.1
      (by decide)
  · exact (stepsize_schedule cfgC6b (fun _ => 0) 1 true 1 rfl rfl 1).2.2
      rfl (by decide)

/-- Claim C7: in `stochapprox` with Kersten-Deylon acceleration, writing
`k = s.k + 1` for the iteration being executed: for `k > H + 2` the
effective decay index increments by one exactly when the dot product of the
two most recent gradient estimates (`y_k` and `y_kminus1`, from the
immediately preceding iterations) is negative, and otherwise `n` is held and
`k` is appended to the no-sign-switch diagnostic list; for
`H < k ≤ H + 2`, `n` equals `k − H`. -/
theorem deylon_schedule {m : ℕ} (cfg : SAConfig m) (s : SAState m)
    (yc yp : Fin m → ℝ) (hd : cfg.deylon = true)
    (hyc : s.y_k = some yc) (hyp2 : s.y_kminus1 = some yp) :
    (2 + cfg.a_0_hold < s.k + 1 →
      (innerprod yc yp < 0 →
        (saStep cfg s).n = s.n + 1 ∧
        (saStep cfg s).nosignswitch = s.nosignswitch) ∧
      (¬ innerprod yc yp < 0 →
        (saStep cfg s).n = s.n ∧
        (saStep cfg s).nosignswitch = s.nosignswitch ++ [s.k + 1])) ∧
    (cfg.a_0_hold < s.k + 1 → s.k + 1 ≤ 2 + cfg.a_0_hold →
      (saStep cfg s).n = (s.k + 1) - cfg.a_0_hold) := by
  constructor
  · intro h3
    have hgt : s.k + 1 > cfg.a_0_hold := by omega
    have hle : ¬ (s.k + 1 ≤ 2 + cfg.a_0_hold) := by omega
    constructor
    · intro hneg
      constructor
      · unfold saStep
        rw [hd, hyc, hyp2]
        simp [hgt, hle, hneg]
      · unfold saStep
        rw [hd, hyc, hyp2]
        simp [hgt, hle, hneg]
    · intro hpos
      constructor
      · unfold saStep
        rw [hd, hyc, hyp2]
        simp [hgt, hle, hpos]
      · unfold saStep
        rw [hd, hyc, hyp2]
        simp [hgt, hle, hpos]
  · intro h1 h2
    unfold saStep
    rw [hd]
    simp [h1, h2]

/-- Concrete configuration for the witness of C7. -/
def cfgC7 : SAConfig 1 :=
  ⟨1, 0, some 1, true, true, 9, fun _ => 0, fun _ _ => fun _ => 0⟩

/-- Concrete loop states for the witness of C7: at iteration 4 (> H + 2 = 2)
with gradient estimates of opposite sign the decay index increments, with
equal sign the iteration index is recorded; at iteration 2 (≤ H + 2) the
index is `k − H`. -/
def sC7 : SAState 1 :=
  ⟨3, 3, 1, fun _ => 0, fun _ => 0, some fun _ => 1, some fun _ => -1, [], 1,
    false⟩

/-- Second concrete state for the witness of C7 (same-sign estimates). -/
def sC7b : SAState 1 :=
  ⟨3, 3, 1, fun _ => 0, fun _ => 0, some fun _ => 1, some fun _ => 1, [], 1,
    false⟩

/-- Third concrete state for the witness of C7 (`k = 2 ≤ H + 2`). -/
def sC7c : SAState 1 :=
  ⟨1, 1, 1, fun _ => 0, fun _ => 0, some fun _ => 1, some fun _ => 1, [], 1,
    false⟩

/-- Witness for C7 at the three concrete states. -/
theorem deylon_schedule_witness :
    (saStep cfgC7 sC7).n = sC7.n + 1 ∧
    (saStep cfgC7 sC7b).nosignswitch = sC7b.nosignswitch ++ [sC7b.k + 1] ∧
    (saStep cfgC7 sC7c).n = (sC7c.k + 1) - cfgC7.a_0_hold := by
  have hneg : innerprod (fun _ : Fin 1 => (1:ℝ)) (fun _ => -1) < 0 := by
    simp [innerprod]
  have hpos : ¬ innerprod (fun _ : Fin 1 => (1:ℝ)) (fun _ => 1) < 0 := by
    simp [innerprod]
  refine ⟨?_, ?_, ?_⟩
  · exact (((deylon_schedule cfgC7 sC7 _ _ rfl rfl rfl).1
      (by decide)).1 hneg).1
  · exact (((deylon_schedule cfgC7 sC7b _ _ rfl rfl rfl).1
      (by decide)).2 hpos).2
  · exact (deylon_schedule cfgC7 sC7c _ _ rfl rfl rfl).2
      (by decide) (by decide)

/-- The raw Robbins-Monro update computed at iteration `t ≥ 1` of the loop
(source line 602): `newparams = θ_{t-1} − a_t·y_t`, where `θ_{t-1}` is the
committed parameter vector before the iteration, `a_t` the step size
computed in the iteration (stored as `a_k` of the post-iteration state), and
`y_t = est t θ_{t-1} − K` the gradient estimate drawn in the iteration. -/
def saRaw {m : ℕ} (cfg : SAConfig m) (s0 : SAState m) (t : ℕ) : Fin m → ℝ :=
  fun i =>
    (saIterate cfg s0 (t - 1)).params i -
      (saIterate cfg s0 t).a_k *
        (cfg.est t ((saIterate cfg s0 (t - 1)).params) i - cfg.K i)

theorem saStep_ruppert_avg {m : ℕ} (cfg : SAConfig m) (s : SAState m)
    (hr : cfg.ruppertaverage = true) :
    (saStep cfg s).params = (saStep cfg s).avgparams ∧
    ∀ i, (saStep cfg s).avgparams i =
      (((s.k + 1 : ℕ) : ℝ) - 1) / ((s.k + 1 : ℕ) : ℝ) * s.avgparams i
        + 1 / ((s.k + 1 : ℕ) : ℝ) *
          (s.params i - (saStep cfg s).a_k *
            (cfg.est (s.k + 1) s.params i - cfg.K i)) := by
  constructor
  · unfold saStep
    rw [hr]
    simp
  · intro i
    unfold saStep
    rw [hr]
    simp

/-- Claim C5: in `stochapprox` with Ruppert-Polyak averaging enabled, on a
fresh start (`k₀ = 0`), at every iteration `t ≥ 1` the committed parameter
vector equals the running average; the running average satisfies
`avg_t = (t−1)/t·avg_{t−1} + (1/t)·(raw update of iteration t)` where the
raw update is `θ_{t-1} − a_t·y_t`; and the running average equals the
arithmetic mean of all raw per-iteration updates computed so far. -/
theorem stochapprox_averaging {m : ℕ} (cfg : SAConfig m) (θ0 : Fin m → ℝ)
    (mt : ℕ) (ss : Bool) (hr : cfg.ruppertaverage = true) (t : ℕ)
    (ht : 1 ≤ t) :
    ((saIterate cfg (saInit cfg θ0 0 mt ss) t).params =
      (saIterate cfg (saInit cfg θ0 0 mt ss) t).avgparams) ∧
    (∀ i, (saIterate cfg (saInit cfg θ0 0 mt ss) t).avgparams i =
      ((t : ℝ) - 1) / (t : ℝ) *
          (saIterate cfg (saInit cfg θ0 0 mt ss) (t - 1)).avgparams i
        + 1 / (t : ℝ) * saRaw cfg (saInit cfg θ0 0 mt ss) t i) ∧
    (∀ i, (saIterate cfg (saInit cfg θ0 0 mt ss) t).avgparams i =
      (∑ u ∈ Finset.range t, saRaw cfg (saInit cfg θ0 0 mt ss) (u + 1) i)
        / (t : ℝ)) := by
  have hk : ∀ u : ℕ, (saIterate cfg (saInit cfg θ0 0 mt ss) u).k = u := by
    intro u
    rw [saIterate_k]
    simp [saInit]
  have part2 : ∀ u : ℕ, 1 ≤ u → ∀ i,
      (saIterate cfg (saInit cfg θ0 0 mt ss) u).avgparams i =
        ((u : ℝ) - 1) / (u : ℝ) *
            (saIterate cfg (saInit cfg θ0 0 mt ss) (u - 1)).avgparams i
          + 1 / (u : ℝ) * saRaw cfg (saInit cfg θ0 0 mt ss) u i := by
    intro u hu i
    obtain ⟨v, rfl⟩ : ∃ v, u = v + 1 := ⟨u - 1, by omega⟩
    have hstep :=
      (saStep_ruppert_avg cfg (saIterate cfg (saInit cfg θ0 0 mt ss) v) hr).2 i
    rw [hk v] at hstep
    unfold saRaw
    simpa using hstep
  have part3 : ∀ u : ℕ, 1 ≤ u → ∀ i,
      (saIterate cfg (saInit cfg θ0 0 mt ss) u).avgparams i =
        (∑ w ∈ Finset.range u,
          saRaw cfg (saInit cfg θ0 0 mt ss) (w + 1) i) / (u : ℝ) := by
    intro u hu
    induction u, hu using Nat.le_induction with
    | base =>
      intro i
      rw [part2 1 (by omega) i, Finset.sum_range_one]
      norm_num
    | succ v hv ih =>
      intro i
      have hsub : (v + 1) - 1 = v := by omega
      rw [part2 (v + 1) (by omega) i, hsub, ih i, Finset.sum_range_succ]
      have hv0 : (v : ℝ) ≠ 0 := Nat.cast_ne_zero.mpr (by omega)
      have hv1 : (v : ℝ) + 1 ≠ 0 := by positivity
      push_cast
      field_simp
      ring
  refine ⟨?_, part2 t ht, part3 t ht⟩
  obtain ⟨v, rfl⟩ : ∃ v, t = v + 1 := ⟨t - 1, by omega⟩
  exact (saStep_ruppert_avg cfg (saIterate cfg (saInit cfg θ0 0 mt ss) v)
    hr).1

/-- Concrete configuration for the witness of C5. -/
def cfgC5 : SAConfig 1 :=
  ⟨1, 0, some 1, true, false, 1, fun _ => 0, fun _ _ => fun _ => 0⟩

/-- Witness for C5 at one iteration of a concrete averaging run. -/
theorem stochapprox_averaging_witness :
    cfgC5.ruppertaverage = true ∧ (1 : ℕ) ≤ 1 ∧
    ((saIterate cfgC5 (saInit cfgC5 (fun _ => 0) 0 1 true) 1).params =
      (saIterate cfgC5 (saInit cfgC5 (fun _ => 0) 0 1 true) 1).avgparams) := by
  exact ⟨rfl, le_refl 1,
    (stochapprox_averaging cfgC5 (fun _ => 0) 1 true rfl 1 (le_refl 1)).1⟩

/-- Concrete configuration for the counterexample to C10. -/
def cfgC10 : SAConfig 1 :=
  ⟨1, 0, some 1, false, false, 1, fun _ => 0, fun _ _ => fun _ => 0⟩

/-- Concrete entry state for the counterexample to C10: before the call the
model is configured with `matrixtrials = 2` and `staticsample = True`. -/
def sC10 : SAState 1 :=
  saInit cfgC10 (fun _ => 0) 0 2 true

/-- Counterexample to C10 as stated: after `stochapprox` returns, the
trial-count and static-sample settings do NOT hold the values they had
before the call — the source (lines 572-573) sets `self.matrixtrials = 1`
and `self.staticsample = False` inside the loop and never restores them. -/
theorem stochapprox_settings_clobbered :
    ¬ ((stochapprox cfgC10 sC10).matrixtrials = sC10.matrixtrials ∧
       (stochapprox cfgC10 sC10).staticsample = sC10.staticsample) := by
  intro h
  have h1 : (stochapprox cfgC10 sC10).matrixtrials = 1 := rfl
  have h2 : sC10.matrixtrials = 2 := rfl
  exact absurd (h1.symm.trans (h.1.trans h2)) (by decide)

/-- Claim C10 as amended: `stochapprox` forces the trial count to 1 and
disables static-sample reuse, and these settings persist after the procedure
returns (they are not restored to their pre-call values). -/
theorem stochapprox_forces_single_trial {m : ℕ} (cfg : SAConfig m)
    (s : SAState m) :
    (stochapprox cfg s).matrixtrials = 1 ∧
    (stochapprox cfg s).staticsample = false := by
  unfold stochapprox
  have h1 : 1 ≤ max 1 (cfg.maxiter - s.k) := le_max_left _ _
  obtain ⟨u, hu⟩ : ∃ u, max 1 (cfg.maxiter - s.k) = u + 1 :=
    ⟨max 1 (cfg.maxiter - s.k) - 1, by omega⟩
  rw [hu]
  exact ⟨rfl, rfl⟩

/-- Modelled from the spec: the unregularized dual value computed on an
external sample set during `test()` (source line 679 calls
`self.dual(ignorepenalty=True, ignoretest=True)`, defined in `basemodel.py`,
which is not in `src/`); per the spec, `D_e = logZ_e(θ) − θ·K`. -/
def externalDual {m n : ℕ} (θ : Fin m → ℝ) (s : SampleData m n)
    (K : Fin m → ℝ) : ℝ :=
  sampleLogZ θ s - innerprod θ K

/-- The mean unregularized dual across the external sample sets
(`meandual = np.average(dualapprox, axis=0)`, source line 686). -/
def meanExternalDual {m n : ℕ} (θ : Fin m → ℝ)
    (ext : List (SampleData m n)) (K : Fin m → ℝ) : ℝ :=
  ((ext.map fun s => externalDual θ s K).sum) / ext.length

/-- The best-so-far update of one `test()` call (source lines 697-701): the
record `(bestdual, bestparams)` is replaced by `(meandual, params)` exactly
when `meandual < bestdual`. -/
def testStep {m n : ℕ} (ext : List (SampleData m n)) (K : Fin m → ℝ)
    (best : ℝ × (Fin m → ℝ)) (θ : Fin m → ℝ) : ℝ × (Fin m → ℝ) :=
  if meanExternalDual θ ext K < best.1 then (meanExternalDual θ ext K, θ)
  else best

/-- A sequence of `test()` calls at successive parameter vectors, folding
the best-so-far record (initially `(inf, -)`, source line 75). -/
def runTests {m n : ℕ} (ext : List (SampleData m n)) (K : Fin m → ℝ)
    (init : ℝ × (Fin m → ℝ)) (θs : List (Fin m → ℝ)) : ℝ × (Fin m → ℝ) :=
  θs.foldl (testStep ext K) init

theorem runTests_no_update {m n : ℕ} (ext : List (SampleData m n))
    (K : Fin m → ℝ) (b : ℝ × (Fin m → ℝ)) (θs : List (Fin m → ℝ))
    (h : ∀ θ ∈ θs, ¬ meanExternalDual θ ext K < b.1) :
    runTests ext K b θs = b := by
  induction θs with
  | nil => rfl
  | cons a rest ih =>
    have ha : ¬ meanExternalDual a ext K < b.1 := h a (by simp)
    have hstep : testStep ext K b a = b := by
      unfold testStep
      rw [if_neg ha]
    show List.foldl (testStep ext K) (testStep ext K b a) rest = b
    rw [hstep]
    exact ih fun θ hθ => h θ (by simp [hθ])

theorem runTests_unique_min {m n : ℕ} (ext : List (SampleData m n))
    (K : Fin m → ℝ) (θs : List (Fin m → ℝ)) :
    ∀ (init : ℝ × (Fin m → ℝ)) (t : ℕ) (ht : t < θs.length),
    meanExternalDual (θs.get ⟨t, ht⟩) ext K < init.1 →
    (∀ s : ℕ, (hs : s < θs.length) → s ≠ t →
      meanExternalDual (θs.get ⟨t, ht⟩) ext K <
        meanExternalDual (θs.get ⟨s, hs⟩) ext K) →
    runTests ext K init θs =
      (meanExternalDual (θs.get ⟨t, ht⟩) ext K, θs.get ⟨t, ht⟩) := by
  induction θs with
  | nil =>
    intro init t ht
    exact absurd ht (by simp)
  | cons a rest ih =>
    intro init t ht hinit hmin
    cases t with
    | zero =>
      have hinit0 : meanExternalDual a ext K < init.1 := hinit
      have hstep : testStep ext K init a = (meanExternalDual a ext K, a) := by
        unfold testStep
        rw [if_pos hinit0]
      show List.foldl (testStep ext K) (testStep ext K init a) rest =
        (meanExternalDual a ext K, a)
      rw [hstep]
      refine runTests_no_update ext K _ rest fun θ hθ => ?_
      obtain ⟨i, rfl⟩ := List.mem_iff_get.mp hθ
      exact not_lt.mpr
        (le_of_lt (hmin (i.1 + 1) (Nat.succ_lt_succ i.isLt)
          (Nat.succ_ne_zero _)))
    | succ t' =>
      have ht' : t' < rest.length := Nat.lt_of_succ_lt_succ ht
      have hlt_a : meanExternalDual ((a :: rest).get ⟨t' + 1, ht⟩) ext K <
          meanExternalDual a ext K :=
        hmin 0 (Nat.succ_pos _) (by omega)
      have hinit2 : meanExternalDual (rest.get ⟨t', ht'⟩) ext K <
          (testStep ext K init a).1 := by
        unfold testStep
        split_ifs with hcase
        · exact hlt_a
        · exact hinit
      show List.foldl (testStep ext K) (testStep ext K init a) rest =
        (meanExternalDual (rest.get ⟨t', ht'⟩) ext K, rest.get ⟨t', ht'⟩)
      exact ih (testStep ext K init a) t' ht' hinit2 fun s hs hne =>
        hmin (s + 1) (Nat.succ_lt_succ hs) (by omega)

/-- Claim C9: `test()` updates the best-so-far record strictly — the best
parameter vector and best dual value are replaced only when the mean
unregularized dual across the external sample sets is strictly lower than
the best mean dual recorded so far — hence over any sequence of `test()`
calls whose mean duals attain a unique strict minimum below the initial
best dual, the recorded best parameters are those observed at the minimum
mean dual, not at the final call. -/
theorem test_best_so_far {m n : ℕ} (ext : List (SampleData m n))
    (K : Fin m → ℝ) (init : ℝ × (Fin m → ℝ)) (θs : List (Fin m → ℝ))
    (t : ℕ) (ht : t < θs.length)
    (hinit : meanExternalDual (θs.get ⟨t, ht⟩) ext K < init.1)
    (hmin : ∀ s : ℕ, (hs : s < θs.length) → s ≠ t →
      meanExternalDual (θs.get ⟨t, ht⟩) ext K <
        meanExternalDual (θs.get ⟨s, hs⟩) ext K) :
    (∀ (b : ℝ × (Fin m → ℝ)) (θ : Fin m → ℝ),
      ¬ meanExternalDual θ ext K < b.1 → testStep ext K b θ = b) ∧
    (∀ (b : ℝ × (Fin m → ℝ)) (θ : Fin m → ℝ),
      meanExternalDual θ ext K < b.1 →
        testStep ext K b θ = (meanExternalDual θ ext K, θ)) ∧
    runTests ext K init θs =
      (meanExternalDual (θs.get ⟨t, ht⟩) ext K, θs.get ⟨t, ht⟩) := by
  refine ⟨fun b θ h => ?_, fun b θ h => ?_,
    runTests_unique_min ext K θs init t ht hinit hmin⟩
  · unfold testStep
    rw [if_neg h]
  · unfold testStep
    rw [if_pos h]

/-- A concrete external sample set used by the witness of C9. -/
def sC9 : SampleData 1 1 :=
  ⟨fun _ _ => 0, fun _ => 0, none⟩

/-- Witness for C9: a single `test()` call whose mean dual (0) improves on
the initial best dual (1) records its parameters. -/
theorem test_best_so_far_witness :
    meanExternalDual (fun _ => (0:ℝ)) [sC9] (fun _ => 0) < (1 : ℝ) ∧
    runTests [sC9] (fun _ => 0) (1, fun _ => 37) [fun _ => 0] =
      (meanExternalDual (fun _ => (0:ℝ)) [sC9] (fun _ => 0),
        fun _ => 0) := by
  have hmd : meanExternalDual (fun _ => (0:ℝ)) [sC9] (fun _ => 0) < 1 := by
    simp [meanExternalDual, externalDual, sampleLogZ, sampleLogv, logsumexp,
      innerprod, innerprodtranspose, sC9, Real.exp_zero, Real.log_one]
  refine ⟨hmd, ?_⟩
  exact (test_best_so_far [sC9] (fun _ => 0) (1, fun _ => 37) [fun _ => 0] 0
    (by decide) hmd fun s hs hne =>
      absurd (Nat.lt_one_iff.mp (by simpa using hs)) hne).2.2

end Maxentropy
